import Mathlib

/-!
Verification development for the otto-pm/otto repository index pipeline.

The repository ships the ingestion → chunking → embedding → commit-tracking →
retrieval pipeline as a Python ingest service whose sources are not part of the
checked-in tree; the tree contains the service documentation, the webhook API
documentation, and the Next.js frontend.  Definitions below marked
`Modelled from the spec:` reconstruct the missing components faithfully from the
specification text; the webhook dispatch and the frontend pipeline request are
translated directly from the checked-in sources.
-/

namespace Otto

/-- Pointwise update of a function-backed map with String keys. -/
def updStr {α : Type} (f : String → α) (k : String) (v : α) : String → α :=
  fun x => if x = k then v else f x

/-! ## Frontend pipeline invocation (src/frontend/components/otto-agent/otto-ticket-panel.tsx) -/

/-- Workspace record, translated from the frontend auth context
(src/frontend/context/use-auth-context.tsx, type Workspace). -/
structure Workspace where
  id : String
  installation_id : String
  name : String
  join_code : String
  repo_owner : String
  repo_name : String
  repo_full_name : String
  repo_default_branch : String
  member_ids : List String
  created_by : String
  created_at : String
  updated_at : String
deriving DecidableEq

/-- Request body posted by the ticket panel to the pipeline endpoint. -/
structure PipelineRequestBody where
  repo_full_name : String
  branch : String
deriving DecidableEq

/-- Translated from runPipeline in otto-ticket-panel.tsx (lines 106-132): the body sent to
POST /rag/repos/pipeline is always the pair of the selected repository full name and the
string literal for the main branch; no workspace field is consulted. -/
def runPipelineRequestBody (repoFullName : String) : PipelineRequestBody :=
  { repo_full_name := repoFullName, branch := "main" }

/-! ## Webhook event dispatch (src/unnamed/part_002, POST /webhooks/github and process_webhook) -/

/-- Response body of the webhook handler. -/
structure WebhookResponse where
  httpStatus : Nat
  status : String
  message : String
deriving DecidableEq

/-- Internal workflow dispatched by process_webhook for an event. -/
inductive WebhookAction
  | processPush
  | processPullRequest
  | acknowledgeOnly
deriving DecidableEq

/-- Translated from the webhook API documentation in src/unnamed/part_002: process_webhook
dispatches on the X-GitHub-Event value; push and pull_request events each have a dedicated
handler branch with its own success message, while every other event kind is acknowledged
with a 200 success response and a message naming the unknown kind, triggering no handler. -/
def process_webhook (eventType : String) : WebhookResponse × WebhookAction :=
  if eventType == "push" then
    ({ httpStatus := 200, status := "success", message := "Push event processed." },
     WebhookAction.processPush)
  else if eventType == "pull_request" then
    ({ httpStatus := 200, status := "success", message := "Pull Request event processed." },
     WebhookAction.processPullRequest)
  else
    ({ httpStatus := 200, status := "success",
       message := "Unknown GitHub event type: " ++ eventType },
     WebhookAction.acknowledgeOnly)

/-! ## Chunker -/

/-- Modelled from the spec: fixed-size line-window chunking (the fallback path of the
Chunker).  Line numbers are 1-based inclusive.  Each window spans at most `size` lines;
when the window does not reach the end of the file, the next window starts `overlap`
lines before the current window ends, so adjacent windows share exactly `overlap` lines.
`fuel` bounds the recursion by the line count of the file. -/
def windowsAux (size overlap n : Nat) : Nat → Nat → List (Nat × Nat)
  | 0, _ => []
  | fuel + 1, start =>
    if start = 0 ∨ n < start then []
    else
      let e := min (start + size - 1) n
      if e = n then [(start, e)]
      else (start, e) :: windowsAux size overlap n fuel (e + 1 - overlap)

/-- Modelled from the spec: the fixed-window fallback chunking of an `n`-line file. -/
def fixedWindowChunks (size overlap n : Nat) : List (Nat × Nat) :=
  windowsAux size overlap n n 1

/-- Modelled from the spec: the overlap rule applied to a structural segmentation.
Each segment after the first is extended backwards so that it starts `overlap` lines
before the previous segment ends. `prevEnd` is the end line of the preceding segment. -/
def applyOverlapAux (overlap : Nat) : Nat → List (Nat × Nat) → List (Nat × Nat)
  | _, [] => []
  | prevEnd, (_, e) :: rest => (prevEnd + 1 - overlap, e) :: applyOverlapAux overlap e rest

/-- Modelled from the spec: overlap applied to all adjacent pairs of a segmentation;
the first segment keeps its start (file start is exempt from the overlap rule). -/
def applyOverlap (overlap : Nat) : List (Nat × Nat) → List (Nat × Nat)
  | [] => []
  | c :: rest => c :: applyOverlapAux overlap c.2 rest

/-- Modelled from the spec: the Chunker chooses structural boundaries when a grammar is
available for the language (the structural segmentation, produced by the external
tree-sitter parse, is a parameter here) and falls back to fixed-size line windows
otherwise; both paths apply the same overlap rule. -/
def chunkRanges (grammarAvailable : Bool) (structuralSegs : List (Nat × Nat))
    (size overlap n : Nat) : List (Nat × Nat) :=
  if grammarAvailable then applyOverlap overlap structuralSegs
  else fixedWindowChunks size overlap n

/-! ## Chunk records and the chunk store -/

/-- Modelled from the spec: RawFile as produced by the Source Fetcher. -/
structure RawFile where
  path : String
  language : String
  contentLines : List String
deriving DecidableEq

/-- Modelled from the spec: the Chunk entity; `embedding` is absent until the embedding
stage completes. -/
structure Chunk where
  chunk_id : String
  repo : String
  file_path : String
  language : String
  start_line : Nat
  end_line : Nat
  text : String
  embedding : Option (List Rat)
  commit_sha : String
deriving DecidableEq

/-- Modelled from the spec: the content-addressed chunk id, derived from the repository,
the file path and the chunk byte range (determined here by the line range). -/
def chunkId (repo path : String) (s e : Nat) : String :=
  repo ++ "#" ++ path ++ "#" ++ toString s ++ "-" ++ toString e

/-- The text of lines `s` to `e` (1-based inclusive) of a file. -/
def sliceText (lines : List String) (s e : Nat) : String :=
  String.intercalate ("\n") ((lines.drop (s - 1)).take (e + 1 - s))

/-- Modelled from the spec: the chunks the Chunker produces for one fetched file
(fallback path; the structural path differs only in boundary placement). -/
def fileChunks (repo sha : String) (size overlap : Nat) (f : RawFile) : List Chunk :=
  (fixedWindowChunks size overlap f.contentLines.length).map (fun p =>
    { chunk_id := chunkId repo f.path p.1 p.2
      repo := repo
      file_path := f.path
      language := f.language
      start_line := p.1
      end_line := p.2
      text := sliceText f.contentLines p.1 p.2
      embedding := none
      commit_sha := sha })

/-! ## Embedding Generator -/

/-- Batching of a list into groups of `n + 1` elements (so `chunksOfListAux 24` makes
batches of 25); the final group may be smaller.  `fuel` bounds the recursion by the
length of the list. -/
def chunksOfListAux {α : Type} (n : Nat) : Nat → List α → List (List α)
  | 0, _ => []
  | _, [] => []
  | fuel + 1, x :: xs => (x :: xs.take n) :: chunksOfListAux n fuel (xs.drop n)

/-- Batching of a list into groups of `n + 1` elements; the final group may be smaller. -/
def chunksOfList {α : Type} (n : Nat) (l : List α) : List (List α) :=
  chunksOfListAux n l.length l

/-- Modelled from the spec: a chunk stays unembedded only when every one of the bounded
retry attempts failed for it. -/
def allAttemptsFail (maxAttempts : Nat) (failAt : Nat → String → Bool) (id : String) : Bool :=
  (List.range maxAttempts).all (fun i => failAt i id)

/-- Modelled from the spec: one chunk passing through the Embedding Generator with bounded
retries; `embedOf` is the external embedding model, `failAt i id` says whether attempt `i`
fails for the chunk `id`.  If the retries exhaust, the chunk is marked unembedded;
otherwise its embedding is populated. -/
def embedChunk (embedOf : String → List Rat) (maxAttempts : Nat)
    (failAt : Nat → String → Bool) (c : Chunk) : Chunk :=
  if allAttemptsFail maxAttempts failAt c.chunk_id then { c with embedding := none }
  else { c with embedding := some (embedOf c.chunk_id) }

/-- Modelled from the spec: the Embedding Generator processes chunks in fixed-size batches
(default 25), retrying failed batches a bounded number of times and keeping the progress
made: only the chunks that still fail after the retries are marked unembedded. -/
def generateEmbeddings (embedOf : String → List Rat) (maxAttempts : Nat)
    (failAt : Nat → String → Bool) (batchSize : Nat) (chunks : List Chunk) : List Chunk :=
  ((chunksOfList batchSize chunks).map
    (fun b => b.map (embedChunk embedOf maxAttempts failAt))).flatten

/-! ## Vector Search -/

/-- Dot product of two rational vectors. -/
def dotQ (a b : List Rat) : Rat :=
  (List.zipWith (fun x y => x * y) a b).sum

/-- Modelled from the spec: the cosine-similarity ranking key.  For a fixed query `q`,
ranking vectors `v` by cosine similarity dot(q,v) / (normOf q * normOf v) coincides with
ranking by the exact rational quantity sign(dot(q,v)) * dot(q,v)^2 / dot(v,v), because the
map sending x to sign(x) * x^2 is strictly increasing and normOf q is a common positive
factor; this definition computes that surrogate, avoiding irrational square roots. -/
def cosScore (q v : List Rat) : Rat :=
  let d := dotQ q v
  let n := dotQ v v
  if n = 0 then 0 else if d < 0 then -(d * d) / n else d * d / n

/-- The ranking score of a stored chunk against a query vector. -/
def chunkScore (q : List Rat) (c : Chunk) : Rat :=
  cosScore q (c.embedding.getD [])

/-- Modelled from the spec: the search ordering; higher cosine similarity first, ties
broken by file path and then by start line for determinism. -/
def rankProp (q : List Rat) (a b : Chunk) : Prop :=
  chunkScore q b < chunkScore q a ∨
    (chunkScore q a = chunkScore q b ∧
      (a.file_path < b.file_path ∨
        (a.file_path = b.file_path ∧ a.start_line ≤ b.start_line)))

instance rankPropDecidable (q : List Rat) (a b : Chunk) : Decidable (rankProp q a b) := by
  unfold rankProp
  infer_instance

/-- Query-time error: the repository has no embedded chunks. -/
inductive SearchError
  | notIndexed
deriving DecidableEq

/-- Modelled from the spec: Vector Search loads all chunks with non-null embeddings for the
repository, fails with NotIndexed when there are none, and otherwise returns the top `k`
chunks under the cosine ranking with the deterministic tie-break. -/
def vectorSearch (q : List Rat) (k : Nat) (chunks : List Chunk) :
    Except SearchError (List Chunk) :=
  let candidates := chunks.filter (fun c => c.embedding.isSome)
  if candidates.isEmpty then Except.error SearchError.notIndexed
  else Except.ok ((candidates.insertionSort (rankProp q)).take k)

/-! ## Commit Tracker -/

/-- Modelled from the spec: the per-repository status of the Commit Tracker. -/
inductive Status
  | idle
  | running
  | failed
deriving DecidableEq

/-- Modelled from the spec: the CommitRecord entity. -/
structure CommitRecord where
  lastIndexedCommitSha : Option String
  lastIndexedAt : Nat
  status : Status
deriving DecidableEq

/-- Modelled from the spec: the freshness query; a candidate commit is fresh exactly when
it equals the stored last indexed commit and the status is idle, and stale otherwise
(in particular when the repository has no record yet). -/
def isFresh : Option CommitRecord → String → Bool
  | some r, sha => r.lastIndexedCommitSha == some sha && r.status == Status.idle
  | none, _ => false

/-- The stored last indexed commit of an optional record. -/
def recordSha : Option CommitRecord → Option String
  | some r => r.lastIndexedCommitSha
  | none => none

/-- The stored indexing timestamp of an optional record. -/
def recordAt : Option CommitRecord → Nat
  | some r => r.lastIndexedAt
  | none => 0

/-- The status of an optional record; a repository without a record counts as idle. -/
def recordStatus : Option CommitRecord → Status
  | some r => r.status
  | none => Status.idle

/-- Modelled from the spec: the running-to-failed transition leaves the last indexed
commit unchanged so that the next attempt retries the same commit. -/
def failRecord (old : Option CommitRecord) : Option CommitRecord :=
  some { lastIndexedCommitSha := recordSha old, lastIndexedAt := recordAt old,
         status := Status.failed }

/-! ## Pipeline Orchestrator -/

/-- The structured result every pipeline-invocation caller receives. -/
structure PipelineResult where
  success : Bool
  was_cached : Bool
  total_chunks : Nat
  total_embedded : Nat
  message : String
deriving DecidableEq

/-- The pipeline stage names recorded on failure. -/
inductive StageName
  | fetch
  | chunking
  | embed
deriving DecidableEq

/-- Terminal outcome of one Orchestrator execution. -/
inductive RunOutcome
  | completed
  | reducedCoverage
  | failedAt (stage : StageName)
deriving DecidableEq

/-- Modelled from the spec: the ephemeral PipelineRun report of one Orchestrator
execution. -/
structure PipelineRun where
  filesFetched : Nat
  chunksProduced : Nat
  chunksEmbedded : Nat
  outcome : RunOutcome
deriving DecidableEq

/-- Chunking and embedding configuration; the spec defaults are chunk size 150 lines,
overlap 10 lines, batch size 25 chunks and a bounded number of retry attempts. -/
structure ChunkConfig where
  chunkSize : Nat
  overlap : Nat
  batchSize : Nat
  maxAttempts : Nat
deriving DecidableEq

/-- The configuration defaults named by the spec. -/
def defaultConfig : ChunkConfig :=
  { chunkSize := 150, overlap := 10, batchSize := 25, maxAttempts := 3 }

/-- Modelled from the spec: the external collaborators and failure injections one
Orchestrator run interacts with: the hosting API (fetch result), an injected chunker
failure, a fatal embedding-dimension mismatch, the per-attempt embedding failures and
the external embedding model. -/
structure OrchestratorEnv where
  fetchResult : Except Unit (List RawFile)
  chunkerFails : Bool
  embedDimMismatch : Bool
  failAt : Nat → String → Bool
  embedOf : String → List Rat

/-- Modelled from the spec: the per-repository persistent state the pipeline touches,
together with call counters for the three stages (used to observe that a cached
invocation triggers no stage call). -/
structure IndexState where
  record : Option CommitRecord
  store : List Chunk
  fetchCalls : Nat
  chunkCalls : Nat
  embedCalls : Nat

/-- Modelled from the spec: one Orchestrator execution (the single-flight lease has been
acquired by the caller).  Sequence: fetch, chunk every fetched file, embed the full chunk
set, replace the chunk store wholesale, then advance the Commit Tracker to idle with the
processed commit; on any stage failure transition to failed, leaving the last indexed
commit unchanged, and surface the failing stage in the PipelineRun. -/
def orchestrate (repo sha : String) (cfg : ChunkConfig) (env : OrchestratorEnv) (t : Nat)
    (st : IndexState) : IndexState × PipelineResult × PipelineRun :=
  let st1 : IndexState :=
    { st with
      record := some { lastIndexedCommitSha := recordSha st.record,
                       lastIndexedAt := recordAt st.record, status := Status.running },
      fetchCalls := st.fetchCalls + 1 }
  match env.fetchResult with
  | Except.error _ =>
      ({ st1 with record := failRecord st.record },
       { success := false, was_cached := false, total_chunks := 0, total_embedded := 0,
         message := "failed: fetch" },
       { filesFetched := 0, chunksProduced := 0, chunksEmbedded := 0,
         outcome := RunOutcome.failedAt StageName.fetch })
  | Except.ok files =>
      let st2 : IndexState := { st1 with chunkCalls := st1.chunkCalls + 1 }
      if env.chunkerFails then
        ({ st2 with record := failRecord st.record },
         { success := false, was_cached := false, total_chunks := 0, total_embedded := 0,
           message := "failed: chunk" },
         { filesFetched := files.length, chunksProduced := 0, chunksEmbedded := 0,
           outcome := RunOutcome.failedAt StageName.chunking })
      else
        let chunks := files.flatMap (fileChunks repo sha cfg.chunkSize cfg.overlap)
        let st3 : IndexState := { st2 with embedCalls := st2.embedCalls + 1 }
        if env.embedDimMismatch then
          ({ st3 with record := failRecord st.record },
           { success := false, was_cached := false, total_chunks := 0, total_embedded := 0,
             message := "failed: embed" },
           { filesFetched := files.length, chunksProduced := chunks.length,
             chunksEmbedded := 0, outcome := RunOutcome.failedAt StageName.embed })
        else
          let out := generateEmbeddings env.embedOf cfg.maxAttempts env.failAt
            cfg.batchSize chunks
          let nEmb := out.countP (fun c => c.embedding.isSome)
          ({ st3 with store := out,
                      record := some { lastIndexedCommitSha := some sha,
                                       lastIndexedAt := t, status := Status.idle } },
           { success := true, was_cached := false, total_chunks := out.length,
             total_embedded := nEmb, message := "completed" },
           { filesFetched := files.length, chunksProduced := out.length,
             chunksEmbedded := nEmb,
             outcome := if nEmb = out.length then RunOutcome.completed
                        else RunOutcome.reducedCoverage })

/-- Modelled from the spec: the pipeline invocation consumed by the service layer.  It
first asks the Commit Tracker whether the commit is already indexed (returning a cached
structured result and touching no stage when it is), rejects the call when a run is in
flight, and otherwise executes the Orchestrator. -/
def runPipeline (repo sha : String) (cfg : ChunkConfig) (env : OrchestratorEnv) (t : Nat)
    (st : IndexState) : IndexState × PipelineResult :=
  if isFresh st.record sha then
    (st, { success := true, was_cached := true, total_chunks := st.store.length,
           total_embedded := st.store.countP (fun c => c.embedding.isSome),
           message := "already indexed" })
  else if recordStatus st.record == Status.running then
    (st, { success := false, was_cached := false, total_chunks := 0, total_embedded := 0,
           message := "run in progress" })
  else
    let r := orchestrate repo sha cfg env t st
    (r.1, r.2.1)

/-! ## Sync Coordinator -/

/-- Modelled from the spec: the PendingSync entity recording a push that arrived while no
authorized session could act on it. -/
structure PendingSync where
  repo : String
  commitSha : String
  queuedAt : Nat
deriving DecidableEq

/-- Modelled from the spec: the static environment of the Sync Coordinator: repository
ownership and the tracked branch of each repository. -/
structure SyncEnv where
  owner : String → String
  tracked : String → String

/-- Modelled from the spec: the observable state of the Commit Tracker and Sync
Coordinator across all repositories: per-repository status and last indexed commit, the
queue of PendingSync entries, the authenticated sessions, the log of Orchestrator runs
started (repository and commit), and the number of in-flight runs per repository. -/
structure SyncState where
  status : String → Status
  lastSha : String → Option String
  pending : List PendingSync
  sessions : String → Bool
  runsStarted : List (String × String)
  inFlight : String → Nat

/-- The initial state: every repository idle and unindexed, nothing pending, nobody
authenticated, no run started. -/
def initialSyncState : SyncState :=
  { status := fun _ => Status.idle
    lastSha := fun _ => none
    pending := []
    sessions := fun _ => false
    runsStarted := []
    inFlight := fun _ => 0 }

/-- Modelled from the spec: attempting to start an Orchestrator run through the Commit
Tracker compare-and-set.  A caller observing running must not start a concurrent run and
instead enqueues a PendingSync; from idle or failed the transition to running succeeds
and the run is dispatched. -/
def triggerRun (repo sha : String) (t : Nat) (st : SyncState) : SyncState :=
  if st.status repo = Status.running then
    { st with pending := st.pending ++ [{ repo := repo, commitSha := sha, queuedAt := t }] }
  else
    { st with
      status := updStr st.status repo Status.running
      runsStarted := st.runsStarted ++ [(repo, sha)]
      inFlight := fun r => if r = repo then st.inFlight r + 1 else st.inFlight r }

/-- Modelled from the spec: onPush verifies the push targets the tracked branch (all other
branches are ignored); if the owning session is authenticated it triggers the
Orchestrator, otherwise it records a PendingSync. -/
def onPush (env : SyncEnv) (repo branch sha : String) (t : Nat) (st : SyncState) :
    SyncState :=
  if branch ≠ env.tracked repo then st
  else if st.sessions (env.owner repo) then triggerRun repo sha t st
  else
    { st with pending := st.pending ++ [{ repo := repo, commitSha := sha, queuedAt := t }] }

/-- The latest queued PendingSync entry for a repository (entries are appended in arrival
order, so the last matching entry is the latest queued push). -/
def latestQueued (repo : String) (pend : List PendingSync) : Option PendingSync :=
  (pend.filter (fun p => p.repo == repo)).getLast?

/-- The PendingSync entries whose repository is owned by the given user. -/
def userPending (env : SyncEnv) (user : String) (pend : List PendingSync) :
    List PendingSync :=
  pend.filter (fun p => env.owner p.repo == user)

/-- The distinct repositories with a PendingSync entry owned by the given user. -/
def userPendingRepos (env : SyncEnv) (user : String) (pend : List PendingSync) :
    List String :=
  ((userPending env user pend).map (fun p => p.repo)).dedup

/-- The commit of the latest queued push for a repository (empty when none is queued). -/
def latestShaFor (repo : String) (pend : List PendingSync) : String :=
  match latestQueued repo pend with
  | some p => p.commitSha
  | none => ""

/-- One catch-up trigger per listed repository, each against the latest entry queued for
it among the given PendingSync entries. -/
def loginFold (t : Nat) (mine : List PendingSync) (repos : List String) (s : SyncState) :
    SyncState :=
  repos.foldl (fun s r =>
    match latestQueued r mine with
    | some p => triggerRun r p.commitSha t s
    | none => s) s

/-- Modelled from the spec: onLogin authenticates the user, then for every repository
owned by the user with a PendingSync entry triggers the Orchestrator once against the
latest queued commit (coalescing multiple queued pushes for the repository) and clears
the entries. -/
def onLogin (env : SyncEnv) (user : String) (t : Nat) (st : SyncState) : SyncState :=
  let st1 : SyncState := { st with sessions := updStr st.sessions user true }
  let keep := st1.pending.filter (fun p => env.owner p.repo != user)
  let st2 : SyncState := { st1 with pending := keep }
  loginFold t (userPending env user st1.pending) (userPendingRepos env user st1.pending)
    st2

/-- The external events the Sync Coordinator and Commit Tracker react to. -/
inductive SyncEvent
  | push (repo branch sha : String) (t : Nat)
  | login (user : String) (t : Nat)
  | logout (user : String)
  | runCompleted (repo sha : String) (t : Nat)
  | runFailed (repo : String)

/-- Modelled from the spec: the transition of the coordinated state on one event; run
completion advances the last indexed commit and releases running, run failure releases
running into failed without touching the last indexed commit. -/
def syncStep (env : SyncEnv) (st : SyncState) : SyncEvent → SyncState
  | SyncEvent.push repo branch sha t => onPush env repo branch sha t st
  | SyncEvent.login user t => onLogin env user t st
  | SyncEvent.logout user => { st with sessions := updStr st.sessions user false }
  | SyncEvent.runCompleted repo sha _ =>
      if st.status repo = Status.running then
        { st with
          status := updStr st.status repo Status.idle
          lastSha := updStr st.lastSha repo (some sha)
          inFlight := fun r => if r = repo then st.inFlight r - 1 else st.inFlight r }
      else st
  | SyncEvent.runFailed repo =>
      if st.status repo = Status.running then
        { st with
          status := updStr st.status repo Status.failed
          inFlight := fun r => if r = repo then st.inFlight r - 1 else st.inFlight r }
      else st

/-- The state reached from the initial state by a sequence of events. -/
def execSync (env : SyncEnv) (evts : List SyncEvent) : SyncState :=
  evts.foldl (syncStep env) initialSyncState

/-! ## Derived notions used by the statements -/

/-- The stage at which an Orchestrator run with the given environment fails, if any. -/
def failingStage (env : OrchestratorEnv) : Option StageName :=
  match env.fetchResult with
  | Except.error _ => some StageName.fetch
  | Except.ok _ =>
      if env.chunkerFails then some StageName.chunking
      else if env.embedDimMismatch then some StageName.embed
      else none

/-- The single-flight bookkeeping invariant: the number of in-flight runs of a repository
is one exactly when its tracker status is running, and zero otherwise. -/
def inFlightInv (st : SyncState) : Prop :=
  ∀ repo, st.inFlight repo = (if st.status repo = Status.running then 1 else 0)

/-! ## Concrete instances used by the witnesses -/

/-- A workspace whose configured default branch is not main. -/
def sampleWorkspace : Workspace :=
  { id := "w1", installation_id := "i1", name := "ws", join_code := "j", repo_owner := "o",
    repo_name := "n", repo_full_name := "o/n", repo_default_branch := "develop",
    member_ids := [], created_by := "u", created_at := "t0", updated_at := "t1" }

/-- A sync environment with a single owner and main as every tracked branch. -/
def sampleSyncEnv : SyncEnv :=
  { owner := fun _ => "u", tracked := fun _ => "main" }

/-- A 21-line file; with chunk size 3 and overlap 1 it yields exactly ten chunks. -/
def sampleFile : RawFile :=
  { path := "a.py", language := "python", contentLines := List.replicate 21 ("x") }

/-- A small chunking configuration used by the concrete scenarios. -/
def sampleCfg : ChunkConfig :=
  { chunkSize := 3, overlap := 1, batchSize := 4, maxAttempts := 3 }

/-- An orchestrator environment in which exactly two of the ten chunks of the sample file
fail every embedding attempt. -/
def sampleEnvTwoFail : OrchestratorEnv :=
  { fetchResult := Except.ok [sampleFile], chunkerFails := false, embedDimMismatch := false,
    failAt := fun _ id =>
      id == chunkId ("r") ("a.py") 5 7 || id == chunkId ("r") ("a.py") 13 15,
    embedOf := fun _ => [1, 0] }

/-- An orchestrator environment with no failure of any kind. -/
def sampleEnvOk : OrchestratorEnv :=
  { fetchResult := Except.ok [sampleFile], chunkerFails := false, embedDimMismatch := false,
    failAt := fun _ _ => false, embedOf := fun _ => [1, 0] }

/-- An orchestrator environment whose hosting API is unreachable. -/
def sampleEnvFetchErr : OrchestratorEnv :=
  { fetchResult := Except.error (), chunkerFails := false, embedDimMismatch := false,
    failAt := fun _ _ => false, embedOf := fun _ => [1, 0] }

/-- The empty per-repository index state. -/
def emptyIndexState : IndexState :=
  { record := none, store := [], fetchCalls := 0, chunkCalls := 0, embedCalls := 0 }

/-- A stored chunk with the given path, start line and optional embedding. -/
def sampleChunk (p : String) (s : Nat) (v : Option (List Rat)) : Chunk :=
  { chunk_id := p ++ toString s, repo := "r", file_path := p, language := "t",
    start_line := s, end_line := s + 1, text := "body", embedding := v, commit_sha := "c" }

/-- A four-chunk store: three embedded chunks and one unembedded chunk. -/
def sampleStore : List Chunk :=
  [sampleChunk ("b.py") 1 (some [0, 1]), sampleChunk ("a.py") 1 (some [1, 0]),
   sampleChunk ("c.py") 3 none, sampleChunk ("a.py") 9 (some [1, 0])]

/-! # Theorems -/

/-- C10: for every repository indexed from the ticket panel, the pipeline invocation sends
branch main regardless of the configured default branch of the workspace; a workspace whose
tracked branch is not main is nevertheless indexed from main. -/
theorem ticket_panel_always_indexes_main (w : Workspace) (repoFullName : String)
    (h : w.repo_default_branch ≠ "main") :
    (runPipelineRequestBody repoFullName).branch = "main" ∧
      (runPipelineRequestBody w.repo_full_name).branch ≠ w.repo_default_branch := by
  refine ⟨rfl, ?_⟩
  show ("main" : String) ≠ w.repo_default_branch
  exact fun hh => h hh.symm

/-- C10 witness: the concrete workspace with default branch develop is still indexed from
main by the ticket panel. -/
theorem ticket_panel_always_indexes_main_witness :
    (runPipelineRequestBody ("o/n")).branch = "main" ∧
      (runPipelineRequestBody sampleWorkspace.repo_full_name).branch ≠
        sampleWorkspace.repo_default_branch :=
  ticket_panel_always_indexes_main sampleWorkspace ("o/n") (by decide)

/-- C9 counterexample: the dispatch does not handle only the push kind; the pull_request
kind is dispatched to its own handler rather than merely acknowledged. -/
theorem webhook_dispatch_not_push_only :
    ¬ (∀ e : String, e ≠ "push" →
        (process_webhook e).2 = WebhookAction.acknowledgeOnly) := by
  intro h
  have h2 := h ("pull_request") (by decide)
  have h3 : (process_webhook ("pull_request")).2 = WebhookAction.processPullRequest := by
    decide
  rw [h3] at h2
  exact absurd h2 (by decide)

/-- C9 (amended): the webhook dispatch handles the push and pull_request kinds; every
other received event kind is acknowledged with a 200 success response naming the unknown
kind and dispatches no handler. -/
theorem webhook_dispatch_acknowledges_unknown (e : String) (h1 : e ≠ "push")
    (h2 : e ≠ "pull_request") :
    process_webhook e =
      ({ httpStatus := 200, status := "success",
         message := "Unknown GitHub event type: " ++ e },
       WebhookAction.acknowledgeOnly) := by
  simp [process_webhook, h1, h2]

/-- C9 witness: a concrete non-push, non-pull-request event kind is acknowledged with a
200 success response and dispatches no handler. -/
theorem webhook_dispatch_acknowledges_unknown_witness :
    process_webhook ("issues") =
      ({ httpStatus := 200, status := "success",
         message := "Unknown GitHub event type: " ++ "issues" },
       WebhookAction.acknowledgeOnly) :=
  webhook_dispatch_acknowledges_unknown ("issues") (by decide) (by decide)

/-- Auxiliary: a nonempty window list produced by windowsAux starts at the given start
line. -/
theorem windowsAux_head_fst (size overlap n fuel start : Nat) :
    ∀ p ∈ (windowsAux size overlap n fuel start).head?, p.1 = start := by
  cases fuel with
  | zero =>
      intro p hp
      simp [windowsAux] at hp
  | succ m =>
      intro p hp
      simp only [windowsAux] at hp
      split_ifs at hp with h1 h2
      · simp at hp
      · simp at hp
        rw [← hp]
      · simp at hp
        rw [← hp]

/-- Auxiliary: the fixed-window chunking satisfies the exact-overlap chain invariant from
any positive start line, provided the overlap is positive and smaller than the window. -/
theorem windowsAux_chain (size overlap n : Nat) (hsz : overlap < size) :
    ∀ (fuel start : Nat), 1 ≤ start →
      List.Chain' (fun a b : Nat × Nat => b.1 + overlap = a.2 + 1)
        (windowsAux size overlap n fuel start) := by
  intro fuel
  induction fuel with
  | zero =>
      intro start _
      simp [windowsAux]
  | succ m ih =>
      intro start hstart
      simp only [windowsAux]
      split_ifs with h1 h2
      · exact List.chain'_nil
      · exact List.chain'_singleton _
      · refine List.chain'_cons'.mpr ⟨?_, ?_⟩
        · intro b hb
          have hb1 := windowsAux_head_fst size overlap n m
            (min (start + size - 1) n + 1 - overlap) b hb
          have hmin := min_choice (start + size - 1) n
          rcases hmin with hm | hm
          · rw [hm] at hb1 h2 ⊢
            simp only []
            omega
          · exact absurd hm h2
        · apply ih
          have hmin := min_choice (start + size - 1) n
          rcases hmin with hm | hm
          · rw [hm]
            omega
          · exact absurd hm h2

/-- Auxiliary: the overlap rule applied along a segmentation yields the exact-overlap
chain from any previous chunk, provided every segment ends at or after line `overlap`. -/
theorem applyOverlapAux_chain (overlap : Nat) :
    ∀ (l : List (Nat × Nat)) (s prevEnd : Nat), overlap ≤ prevEnd →
      (∀ p ∈ l, overlap ≤ p.2) →
      List.Chain (fun a b : Nat × Nat => b.1 + overlap = a.2 + 1) (s, prevEnd)
        (applyOverlapAux overlap prevEnd l)
  | [], _, _, _, _ => List.Chain.nil
  | (s0, e0) :: rest, s, prevEnd, hp, hl => by
      simp only [applyOverlapAux]
      refine List.Chain.cons ?_ ?_
      · show (prevEnd + 1 - overlap) + overlap = prevEnd + 1
        omega
      · exact applyOverlapAux_chain overlap rest (prevEnd + 1 - overlap) e0
          (hl (s0, e0) (by simp)) (fun p hp2 => hl p (by simp [hp2]))

/-- C5: for every file, the chunks produced by the structural path and by the fixed-window
fallback alike satisfy the exact-overlap invariant for adjacent chunks, stated as the
chain relation that each next chunk starts exactly `overlap` lines before its predecessor
ends; in particular a 200-line file with chunk size 150 and overlap 10 yields two chunks
sharing exactly ten lines, and a 5-line file yields a single chunk with no overlap. -/
theorem chunker_overlap_invariant (grammar : Bool) (segs : List (Nat × Nat))
    (size overlap n : Nat) (_hov : 0 < overlap) (hsz : overlap < size)
    (hsegs : ∀ p ∈ segs, overlap ≤ p.2) :
    List.Chain' (fun a b : Nat × Nat => b.1 + overlap = a.2 + 1)
      (chunkRanges grammar segs size overlap n) ∧
    fixedWindowChunks 150 10 200 = [(1, 150), (141, 200)] ∧
    fixedWindowChunks 150 10 5 = [(1, 5)] := by
  refine ⟨?_, by decide, by decide⟩
  cases grammar with
  | false =>
      simpa [chunkRanges, fixedWindowChunks] using
        windowsAux_chain size overlap n hsz n 1 (by omega)
  | true =>
      simp only [chunkRanges, if_pos]
      cases segs with
      | nil => exact List.chain'_nil
      | cons c rest =>
          obtain ⟨cs, ce⟩ := c
          show List.Chain (fun a b : Nat × Nat => b.1 + overlap = a.2 + 1) (cs, ce)
            (applyOverlapAux overlap ce rest)
          exact applyOverlapAux_chain overlap rest cs ce (hsegs (cs, ce) (by simp))
            (fun p hp => hsegs p (by simp [hp]))

/-- C5 witness: the invariant instantiated on the fallback path for a 200-line file with
the default chunk size and overlap. -/
theorem chunker_overlap_invariant_witness :
    List.Chain' (fun a b : Nat × Nat => b.1 + 10 = a.2 + 1)
      (chunkRanges false [] 150 10 200) ∧
    fixedWindowChunks 150 10 200 = [(1, 150), (141, 200)] ∧
    fixedWindowChunks 150 10 5 = [(1, 5)] :=
  chunker_overlap_invariant false [] 150 10 200 (by decide) (by decide) (by simp)

/-- Auxiliary: the search ordering is transitive. -/
theorem rankProp_trans (q : List Rat) (a b c : Chunk) (h1 : rankProp q a b)
    (h2 : rankProp q b c) : rankProp q a c := by
  unfold rankProp at h1 h2 ⊢
  rcases h1 with h1 | ⟨h1e, h1t⟩
  · rcases h2 with h2 | ⟨h2e, _⟩
    · exact Or.inl (lt_trans h2 h1)
    · exact Or.inl (h2e ▸ h1)
  · rcases h2 with h2 | ⟨h2e, h2t⟩
    · exact Or.inl (h1e ▸ h2)
    · refine Or.inr ⟨h1e.trans h2e, ?_⟩
      rcases h1t with hp | ⟨hpe, hle⟩ <;> rcases h2t with hq | ⟨hqe, hqle⟩
      · exact Or.inl (lt_trans hp hq)
      · exact Or.inl (hqe ▸ hp)
      · exact Or.inl (hpe ▸ hq)
      · exact Or.inr ⟨hpe.trans hqe, le_trans hle hqle⟩

/-- Auxiliary: the search ordering is total. -/
theorem rankProp_total (q : List Rat) (a b : Chunk) : rankProp q a b ∨ rankProp q b a := by
  unfold rankProp
  rcases lt_trichotomy (chunkScore q a) (chunkScore q b) with h | h | h
  · exact Or.inr (Or.inl h)
  · rcases lt_trichotomy a.file_path b.file_path with hp | hp | hp
    · exact Or.inl (Or.inr ⟨h, Or.inl hp⟩)
    · rcases le_total a.start_line b.start_line with hl | hl
      · exact Or.inl (Or.inr ⟨h, Or.inr ⟨hp, hl⟩⟩)
      · exact Or.inr (Or.inr ⟨h.symm, Or.inr ⟨hp.symm, hl⟩⟩)
    · exact Or.inr (Or.inr ⟨h.symm, Or.inl hp⟩)
  · exact Or.inl (Or.inl h)

/-- Auxiliary: the branch structure of vectorSearch, with the let binding resolved. -/
theorem vectorSearch_spec (q : List Rat) (k : Nat) (chunks : List Chunk) :
    vectorSearch q k chunks =
      (if (chunks.filter (fun c => c.embedding.isSome)).isEmpty = true then
        Except.error SearchError.notIndexed
      else
        Except.ok (((chunks.filter (fun c => c.embedding.isSome)).insertionSort
          (rankProp q)).take k)) := rfl

/-- Auxiliary: every chunk a successful search returns carries an embedding. -/
theorem vectorSearch_mem_isSome (q : List Rat) (k : Nat) (chunks res : List Chunk)
    (h : vectorSearch q k chunks = Except.ok res) :
    ∀ c ∈ res, c.embedding.isSome = true := by
  intro c hc
  rw [vectorSearch_spec] at h
  split_ifs at h with he
  have hres : res = ((chunks.filter (fun c => c.embedding.isSome)).insertionSort
      (rankProp q)).take k := by
    injection h with h
    exact h.symm
  rw [hres] at hc
  have hmem : c ∈ (chunks.filter (fun c => c.embedding.isSome)).insertionSort
      (rankProp q) :=
    List.take_subset k _ hc
  rw [List.mem_insertionSort] at hmem
  exact (List.mem_filter.mp hmem).2

/-- C4: for a repository with at least one embedded chunk, the search succeeds and
returns the top-k stored chunks among those with embeddings: the result has length
min k (number of embedded chunks), is ordered by the descending ranking with the
deterministic path/line tie-break, splits the embedded chunks into the result and a
remainder every element of which ranks no higher than every returned chunk, and
contains only chunks with embeddings. -/
theorem vector_search_ranking (q : List Rat) (k : Nat) (chunks : List Chunk)
    (h : ∃ c ∈ chunks, c.embedding.isSome = true) :
    ∃ res rest,
      vectorSearch q k chunks = Except.ok res ∧
      res.length = min k (chunks.filter (fun c => c.embedding.isSome)).length ∧
      List.Pairwise (rankProp q) res ∧
      (res ++ rest).Perm (chunks.filter (fun c => c.embedding.isSome)) ∧
      (∀ a ∈ res, ∀ b ∈ rest, rankProp q a b) ∧
      (∀ c ∈ res, c.embedding.isSome = true) := by
  have hne : chunks.filter (fun c => c.embedding.isSome) ≠ [] := by
    obtain ⟨c, hcm, hcs⟩ := h
    intro hnil
    have hmem : c ∈ chunks.filter (fun c => c.embedding.isSome) :=
      List.mem_filter.mpr ⟨hcm, hcs⟩
    rw [hnil] at hmem
    simp at hmem
  have hempty : (chunks.filter (fun c => c.embedding.isSome)).isEmpty = false := by
    rw [List.isEmpty_eq_false]
    exact hne
  have hsorted : List.Pairwise (rankProp q)
      ((chunks.filter (fun c => c.embedding.isSome)).insertionSort (rankProp q)) :=
    @List.sorted_insertionSort Chunk (rankProp q) (rankPropDecidable q)
      ⟨fun a b => rankProp_total q a b⟩ ⟨fun a b c => rankProp_trans q a b c⟩ _
  have hval : vectorSearch q k chunks = Except.ok
      (((chunks.filter (fun c => c.embedding.isSome)).insertionSort
        (rankProp q)).take k) := by
    rw [vectorSearch_spec, if_neg]
    rw [hempty]
    simp
  refine ⟨((chunks.filter (fun c => c.embedding.isSome)).insertionSort (rankProp q)).take k,
    ((chunks.filter (fun c => c.embedding.isSome)).insertionSort (rankProp q)).drop k,
    hval, ?_, ?_, ?_, ?_, ?_⟩
  · rw [List.length_take, List.length_insertionSort]
  · exact hsorted.sublist (List.take_sublist k _)
  · rw [List.take_append_drop]
    exact List.perm_insertionSort _ _
  · intro a ha b hb
    have hsplit : List.Pairwise (rankProp q)
        ((((chunks.filter (fun c => c.embedding.isSome)).insertionSort
            (rankProp q)).take k) ++
          (((chunks.filter (fun c => c.embedding.isSome)).insertionSort
            (rankProp q)).drop k)) := by
      rw [List.take_append_drop]
      exact hsorted
    exact (List.pairwise_append.mp hsplit).2.2 a ha b hb
  · exact vectorSearch_mem_isSome q k chunks _ hval

/-- C4 witness: the ranking theorem instantiated on a concrete four-chunk store with one
unembedded chunk. -/
theorem vector_search_ranking_witness :
    ∃ res rest,
      vectorSearch [(1 : Rat), 0] 2 sampleStore = Except.ok res ∧
      res.length = min 2 (sampleStore.filter (fun c => c.embedding.isSome)).length ∧
      List.Pairwise (rankProp [(1 : Rat), 0]) res ∧
      (res ++ rest).Perm (sampleStore.filter (fun c => c.embedding.isSome)) ∧
      (∀ a ∈ res, ∀ b ∈ rest, rankProp [(1 : Rat), 0] a b) ∧
      (∀ c ∈ res, c.embedding.isSome = true) :=
  vector_search_ranking [(1 : Rat), 0] 2 sampleStore (by decide)

/-- Auxiliary: batching, applying a function per batch, and flattening is the same as
applying the function to every element. -/
theorem chunksOfListAux_map_flatten {α β : Type} (f : α → β) (n : Nat) :
    ∀ (fuel : Nat) (l : List α), l.length ≤ fuel →
      ((chunksOfListAux n fuel l).map (List.map f)).flatten = l.map f := by
  intro fuel
  induction fuel with
  | zero =>
      intro l hl
      rw [Nat.le_zero] at hl
      rw [List.length_eq_zero] at hl
      subst hl
      simp [chunksOfListAux]
  | succ m ih =>
      intro l hl
      cases l with
      | nil => simp [chunksOfListAux]
      | cons x xs =>
          simp only [chunksOfListAux, List.map_cons, List.flatten_cons]
          rw [ih (xs.drop n) (by simp at hl ⊢; omega)]
          rw [List.cons_append, ← List.map_append, List.take_append_drop]

/-- Auxiliary: the batched Embedding Generator acts on every chunk independently. -/
theorem generateEmbeddings_eq_map (e : String → List Rat) (m : Nat)
    (fa : Nat → String → Bool) (b : Nat) (l : List Chunk) :
    generateEmbeddings e m fa b l = l.map (embedChunk e m fa) := by
  unfold generateEmbeddings chunksOfList
  exact chunksOfListAux_map_flatten (embedChunk e m fa) b l.length l le_rfl

/-- Auxiliary: embedding a chunk changes only its embedding field. -/
theorem embedChunk_fields (e : String → List Rat) (m : Nat) (fa : Nat → String → Bool)
    (c : Chunk) :
    (embedChunk e m fa c).chunk_id = c.chunk_id ∧
    (embedChunk e m fa c).file_path = c.file_path ∧
    (embedChunk e m fa c).start_line = c.start_line ∧
    (embedChunk e m fa c).end_line = c.end_line ∧
    (embedChunk e m fa c).commit_sha = c.commit_sha ∧
    (embedChunk e m fa c).text = c.text := by
  unfold embedChunk
  split_ifs <;> simp

/-- Auxiliary: a chunk leaves the Embedding Generator embedded exactly when some retry
attempt succeeded for it. -/
theorem embedChunk_isSome (e : String → List Rat) (m : Nat) (fa : Nat → String → Bool)
    (c : Chunk) :
    (embedChunk e m fa c).embedding.isSome = !(allAttemptsFail m fa c.chunk_id) := by
  unfold embedChunk
  split_ifs with h <;> simp [h]

/-- Auxiliary: the closed form of a fully successful Orchestrator run. -/
theorem orchestrate_ok (repo sha : String) (cfg : ChunkConfig) (env : OrchestratorEnv)
    (t : Nat) (st : IndexState) (files : List RawFile)
    (hf : env.fetchResult = Except.ok files) (hc : env.chunkerFails = false)
    (he : env.embedDimMismatch = false) :
    orchestrate repo sha cfg env t st =
      (let out := (files.flatMap (fileChunks repo sha cfg.chunkSize cfg.overlap)).map
          (embedChunk env.embedOf cfg.maxAttempts env.failAt)
       let nEmb := out.countP (fun c => c.embedding.isSome)
       ({ record := some { lastIndexedCommitSha := some sha, lastIndexedAt := t,
                           status := Status.idle },
          store := out, fetchCalls := st.fetchCalls + 1, chunkCalls := st.chunkCalls + 1,
          embedCalls := st.embedCalls + 1 },
        { success := true, was_cached := false, total_chunks := out.length,
          total_embedded := nEmb, message := "completed" },
        { filesFetched := files.length, chunksProduced := out.length, chunksEmbedded := nEmb,
          outcome := if nEmb = out.length then RunOutcome.completed
                     else RunOutcome.reducedCoverage })) := by
  unfold orchestrate
  rw [hf]
  simp [hc, he, generateEmbeddings_eq_map]

/-- Auxiliary: every Orchestrator run, successful or not, makes exactly one Fetcher call. -/
theorem orchestrate_fetchCalls (repo sha : String) (cfg : ChunkConfig)
    (env : OrchestratorEnv) (t : Nat) (st : IndexState) :
    (orchestrate repo sha cfg env t st).1.fetchCalls = st.fetchCalls + 1 := by
  unfold orchestrate
  cases hfr : env.fetchResult with
  | error e => simp
  | ok files => split_ifs <;> simp

/-- C1: the Commit Tracker freshness query returns stale unless the candidate commit
equals the stored last indexed commit and the status is idle; consequently, after a
successful non-cached pipeline run at a commit, invoking the pipeline again with the same
commit returns was_cached true and leaves the state, including the Fetcher, Chunker and
Embedding Generator call counters, untouched. -/
theorem freshness_and_cached_short_circuit :
    (∀ (rec : Option CommitRecord) (sha : String),
        isFresh rec sha = true ↔
          ∃ r, rec = some r ∧ r.lastIndexedCommitSha = some sha ∧
            r.status = Status.idle) ∧
    (∀ repo sha cfg env t st cfg2 env2 t2,
        (runPipeline repo sha cfg env t st).2.success = true →
        (runPipeline repo sha cfg env t st).2.was_cached = false →
        (runPipeline repo sha cfg2 env2 t2 (runPipeline repo sha cfg env t st).1).1 =
            (runPipeline repo sha cfg env t st).1 ∧
          (runPipeline repo sha cfg2 env2 t2
            (runPipeline repo sha cfg env t st).1).2.was_cached = true) := by
  constructor
  · intro rec sha
    cases rec with
    | none => simp [isFresh]
    | some r =>
        simp only [isFresh, Bool.and_eq_true, beq_iff_eq]
        constructor
        · rintro ⟨h1, h2⟩
          exact ⟨r, rfl, h1, h2⟩
        · rintro ⟨r2, hr2, h1, h2⟩
          cases hr2
          exact ⟨h1, h2⟩
  · intro repo sha cfg env t st cfg2 env2 t2 hsucc hcached
    by_cases hf : isFresh st.record sha = true
    · exfalso
      unfold runPipeline at hcached
      rw [if_pos hf] at hcached
      simp at hcached
    · by_cases hr : (recordStatus st.record == Status.running) = true
      · exfalso
        unfold runPipeline at hsucc
        rw [if_neg hf, if_pos hr] at hsucc
        simp at hsucc
      · have hrun : runPipeline repo sha cfg env t st =
            ((orchestrate repo sha cfg env t st).1,
             (orchestrate repo sha cfg env t st).2.1) := by
          unfold runPipeline
          rw [if_neg hf, if_neg hr]
        cases hfr : env.fetchResult with
        | error e =>
            exfalso
            rw [hrun] at hsucc
            unfold orchestrate at hsucc
            rw [hfr] at hsucc
            simp at hsucc
        | ok files =>
            cases hcf : env.chunkerFails with
            | true =>
                exfalso
                rw [hrun] at hsucc
                unfold orchestrate at hsucc
                rw [hfr] at hsucc
                simp [hcf] at hsucc
            | false =>
                cases hdm : env.embedDimMismatch with
                | true =>
                    exfalso
                    rw [hrun] at hsucc
                    unfold orchestrate at hsucc
                    rw [hfr] at hsucc
                    simp [hcf, hdm] at hsucc
                | false =>
                    have hok := orchestrate_ok repo sha cfg env t st files hfr hcf hdm
                    have hrec : (orchestrate repo sha cfg env t st).1.record =
                        some { lastIndexedCommitSha := some sha, lastIndexedAt := t,
                               status := Status.idle } := by
                      rw [hok]
                    have hfresh2 :
                        isFresh (orchestrate repo sha cfg env t st).1.record sha = true := by
                      rw [hrec]
                      simp [isFresh]
                    rw [hrun]
                    constructor
                    · unfold runPipeline
                      rw [if_pos hfresh2]
                    · unfold runPipeline
                      rw [if_pos hfresh2]

/-- C1 witness: a concrete successful run followed by a second invocation at the same
commit, which is served from the tracker without touching the state. -/
theorem freshness_and_cached_short_circuit_witness :
    (runPipeline ("r") ("c1") sampleCfg sampleEnvOk 6
        (runPipeline ("r") ("c1") sampleCfg sampleEnvOk 5 emptyIndexState).1).1 =
      (runPipeline ("r") ("c1") sampleCfg sampleEnvOk 5 emptyIndexState).1 ∧
    (runPipeline ("r") ("c1") sampleCfg sampleEnvOk 6
        (runPipeline ("r") ("c1") sampleCfg sampleEnvOk 5 emptyIndexState).1).2.was_cached =
      true :=
  freshness_and_cached_short_circuit.2 ("r") ("c1") sampleCfg sampleEnvOk 5 emptyIndexState
    sampleCfg sampleEnvOk 6 (by decide) (by decide)

/-- C3: re-running the Orchestrator for the same repository and commit is idempotent:
chunk ids are derived only from the repository, the file path and the chunk range, the
second run produces the same chunk-id list and count, overwrites the store with an
identical chunk set, and changes the CommitRecord only in its timestamp. -/
theorem pipeline_idempotent (repo sha : String) (cfg : ChunkConfig)
    (env env2 : OrchestratorEnv) (t1 t2 : Nat) (st0 : IndexState) (files : List RawFile)
    (hf : env.fetchResult = Except.ok files) (hc : env.chunkerFails = false)
    (he : env.embedDimMismatch = false)
    (hf2 : env2.fetchResult = Except.ok files) (hc2 : env2.chunkerFails = false)
    (he2 : env2.embedDimMismatch = false) (hfa : env2.failAt = env.failAt)
    (hemb : env2.embedOf = env.embedOf) :
    ((orchestrate repo sha cfg env2 t2
        (orchestrate repo sha cfg env t1 st0).1).1.store.map (fun c => c.chunk_id)) =
      ((orchestrate repo sha cfg env t1 st0).1.store.map (fun c => c.chunk_id)) ∧
    (orchestrate repo sha cfg env2 t2
        (orchestrate repo sha cfg env t1 st0).1).2.1.total_chunks =
      (orchestrate repo sha cfg env t1 st0).2.1.total_chunks ∧
    (orchestrate repo sha cfg env2 t2 (orchestrate repo sha cfg env t1 st0).1).1.store =
      (orchestrate repo sha cfg env t1 st0).1.store ∧
    (orchestrate repo sha cfg env t1 st0).1.record =
      some { lastIndexedCommitSha := some sha, lastIndexedAt := t1,
             status := Status.idle } ∧
    (orchestrate repo sha cfg env2 t2 (orchestrate repo sha cfg env t1 st0).1).1.record =
      some { lastIndexedCommitSha := some sha, lastIndexedAt := t2,
             status := Status.idle } ∧
    (∀ c ∈ (orchestrate repo sha cfg env t1 st0).1.store,
      c.chunk_id = chunkId repo c.file_path c.start_line c.end_line ∧
        c.commit_sha = sha) := by
  have h1 := orchestrate_ok repo sha cfg env t1 st0 files hf hc he
  have h2 := orchestrate_ok repo sha cfg env2 t2 (orchestrate repo sha cfg env t1 st0).1
    files hf2 hc2 he2
  rw [hfa, hemb] at h2
  refine ⟨?_, ?_, ?_, ?_, ?_, ?_⟩
  · rw [h2, h1]
  · rw [h2, h1]
  · rw [h2, h1]
  · rw [h1]
  · rw [h2]
  · intro c hcmem
    rw [h1] at hcmem
    simp only [] at hcmem
    obtain ⟨c0, hc0, rfl⟩ := List.mem_map.mp hcmem
    obtain ⟨f, _, hcf⟩ := List.mem_flatMap.mp hc0
    obtain ⟨p, _, rfl⟩ := List.mem_map.mp hcf
    obtain ⟨hid, hfp, hsl, hel, hcs, _⟩ :=
      embedChunk_fields env.embedOf cfg.maxAttempts env.failAt _
    rw [hid, hfp, hsl, hel, hcs]
    exact ⟨rfl, rfl⟩

/-- C3 witness: the idempotence theorem instantiated on the concrete sample pipeline. -/
theorem pipeline_idempotent_witness :
    ((orchestrate ("r") ("c1") sampleCfg sampleEnvOk 6
        (orchestrate ("r") ("c1") sampleCfg sampleEnvOk 5 emptyIndexState).1).1.store.map
          (fun c => c.chunk_id)) =
      ((orchestrate ("r") ("c1") sampleCfg sampleEnvOk 5
          emptyIndexState).1.store.map (fun c => c.chunk_id)) ∧
    (orchestrate ("r") ("c1") sampleCfg sampleEnvOk 6
        (orchestrate ("r") ("c1") sampleCfg sampleEnvOk 5
          emptyIndexState).1).2.1.total_chunks =
      (orchestrate ("r") ("c1") sampleCfg sampleEnvOk 5 emptyIndexState).2.1.total_chunks ∧
    (orchestrate ("r") ("c1") sampleCfg sampleEnvOk 6
        (orchestrate ("r") ("c1") sampleCfg sampleEnvOk 5 emptyIndexState).1).1.store =
      (orchestrate ("r") ("c1") sampleCfg sampleEnvOk 5 emptyIndexState).1.store ∧
    (orchestrate ("r") ("c1") sampleCfg sampleEnvOk 5 emptyIndexState).1.record =
      some { lastIndexedCommitSha := some ("c1"), lastIndexedAt := 5,
             status := Status.idle } ∧
    (orchestrate ("r") ("c1") sampleCfg sampleEnvOk 6
        (orchestrate ("r") ("c1") sampleCfg sampleEnvOk 5 emptyIndexState).1).1.record =
      some { lastIndexedCommitSha := some ("c1"), lastIndexedAt := 6,
             status := Status.idle } ∧
    (∀ c ∈ (orchestrate ("r") ("c1") sampleCfg sampleEnvOk 5 emptyIndexState).1.store,
      c.chunk_id = chunkId ("r") c.file_path c.start_line c.end_line ∧
        c.commit_sha = "c1") :=
  pipeline_idempotent ("r") ("c1") sampleCfg sampleEnvOk sampleEnvOk 5 6 emptyIndexState
    [sampleFile] rfl rfl rfl rfl rfl rfl rfl rfl

/-- C6: when some chunks exhaust every embedding retry, the run still completes: the
result reports the full chunk count and the count of successfully embedded chunks,
exactly the failing chunks are marked unembedded while all others keep their embeddings,
every produced chunk (embedded or not) is stored with its content, and unembedded chunks
never appear in a search result. -/
theorem embedding_partial_failure (repo sha : String) (cfg : ChunkConfig)
    (env : OrchestratorEnv) (t : Nat) (st0 : IndexState) (files : List RawFile)
    (hf : env.fetchResult = Except.ok files) (hc : env.chunkerFails = false)
    (he : env.embedDimMismatch = false) :
    (orchestrate repo sha cfg env t st0).2.1.success = true ∧
    (orchestrate repo sha cfg env t st0).2.1.total_chunks =
      (files.flatMap (fileChunks repo sha cfg.chunkSize cfg.overlap)).length ∧
    (orchestrate repo sha cfg env t st0).2.1.total_embedded =
      (files.flatMap (fileChunks repo sha cfg.chunkSize cfg.overlap)).countP
        (fun c => !(allAttemptsFail cfg.maxAttempts env.failAt c.chunk_id)) ∧
    ((orchestrate repo sha cfg env t st0).1.store.map (fun c => (c.chunk_id, c.text))) =
      ((files.flatMap (fileChunks repo sha cfg.chunkSize cfg.overlap)).map
        (fun c => (c.chunk_id, c.text))) ∧
    (∀ c ∈ (orchestrate repo sha cfg env t st0).1.store,
        (c.embedding = none ↔
          allAttemptsFail cfg.maxAttempts env.failAt c.chunk_id = true)) ∧
    (∀ q k res, vectorSearch q k (orchestrate repo sha cfg env t st0).1.store =
        Except.ok res → ∀ c ∈ res, c.embedding.isSome = true) := by
  have hok := orchestrate_ok repo sha cfg env t st0 files hf hc he
  refine ⟨?_, ?_, ?_, ?_, ?_, ?_⟩
  · rw [hok]
  · rw [hok]
    simp
  · rw [hok]
    simp only [List.countP_map]
    apply List.countP_congr
    intro c _
    simp [Function.comp, embedChunk_isSome]
  · rw [hok]
    simp only [List.map_map]
    apply List.map_congr_left
    intro c _
    obtain ⟨hid, _, _, _, _, htx⟩ :=
      embedChunk_fields env.embedOf cfg.maxAttempts env.failAt c
    simp [Function.comp, hid, htx]
  · intro c hcmem
    rw [hok] at hcmem
    simp only [] at hcmem
    obtain ⟨c0, _, rfl⟩ := List.mem_map.mp hcmem
    obtain ⟨hid, _, _, _, _, _⟩ :=
      embedChunk_fields env.embedOf cfg.maxAttempts env.failAt c0
    rw [hid]
    unfold embedChunk
    split_ifs with hfail <;> simp [hfail]
  · intro q k res hsearch
    exact vectorSearch_mem_isSome q k _ res hsearch

/-- C6 witness: in the concrete ten-chunk run in which two chunks fail every attempt, the
run completes with total chunks ten and total embedded eight. -/
theorem embedding_partial_failure_witness :
    ((orchestrate ("r") ("c1") sampleCfg sampleEnvTwoFail 5 emptyIndexState).2.1.success =
        true ∧
     (orchestrate ("r") ("c1") sampleCfg sampleEnvTwoFail 5 emptyIndexState).2.1.total_chunks =
       ([sampleFile].flatMap (fileChunks ("r") ("c1") sampleCfg.chunkSize
         sampleCfg.overlap)).length ∧
     (orchestrate ("r") ("c1") sampleCfg sampleEnvTwoFail 5
         emptyIndexState).2.1.total_embedded =
       ([sampleFile].flatMap (fileChunks ("r") ("c1") sampleCfg.chunkSize
         sampleCfg.overlap)).countP
         (fun c => !(allAttemptsFail sampleCfg.maxAttempts sampleEnvTwoFail.failAt
           c.chunk_id)) ∧
     ((orchestrate ("r") ("c1") sampleCfg sampleEnvTwoFail 5
         emptyIndexState).1.store.map (fun c => (c.chunk_id, c.text))) =
       (([sampleFile].flatMap (fileChunks ("r") ("c1") sampleCfg.chunkSize
         sampleCfg.overlap)).map (fun c => (c.chunk_id, c.text))) ∧
     (∀ c ∈ (orchestrate ("r") ("c1") sampleCfg sampleEnvTwoFail 5 emptyIndexState).1.store,
         (c.embedding = none ↔
           allAttemptsFail sampleCfg.maxAttempts sampleEnvTwoFail.failAt c.chunk_id =
             true)) ∧
     (∀ q k res, vectorSearch q k
         (orchestrate ("r") ("c1") sampleCfg sampleEnvTwoFail 5 emptyIndexState).1.store =
           Except.ok res → ∀ c ∈ res, c.embedding.isSome = true)) ∧
    (orchestrate ("r") ("c1") sampleCfg sampleEnvTwoFail 5 emptyIndexState).2.1.total_chunks =
      10 ∧
    (orchestrate ("r") ("c1") sampleCfg sampleEnvTwoFail 5
        emptyIndexState).2.1.total_embedded = 8 :=
  ⟨embedding_partial_failure ("r") ("c1") sampleCfg sampleEnvTwoFail 5 emptyIndexState
      [sampleFile] rfl rfl rfl,
   by decide, by decide⟩

/-- C7: when a pipeline stage fails, the Orchestrator transitions the CommitRecord from
running to failed leaving the last indexed commit unchanged, records the failing stage in
the PipelineRun, and hands the caller a structured non-success result; the commit is then
reported stale, and the next pipeline invocation for the same commit performs a real
retry (a fresh Fetcher call). -/
theorem stage_failure_structured (repo sha : String) (cfg : ChunkConfig)
    (env : OrchestratorEnv) (t : Nat) (st : IndexState) (stg : StageName)
    (cfg2 : ChunkConfig) (env2 : OrchestratorEnv) (t2 : Nat)
    (h : failingStage env = some stg) :
    (orchestrate repo sha cfg env t st).1.record = failRecord st.record ∧
    recordSha (orchestrate repo sha cfg env t st).1.record = recordSha st.record ∧
    recordStatus (orchestrate repo sha cfg env t st).1.record = Status.failed ∧
    (orchestrate repo sha cfg env t st).2.2.outcome = RunOutcome.failedAt stg ∧
    (orchestrate repo sha cfg env t st).2.1.success = false ∧
    (orchestrate repo sha cfg env t st).2.1.was_cached = false ∧
    isFresh (orchestrate repo sha cfg env t st).1.record sha = false ∧
    (runPipeline repo sha cfg2 env2 t2 (orchestrate repo sha cfg env t st).1).1.fetchCalls =
      (orchestrate repo sha cfg env t st).1.fetchCalls + 1 := by
  have hfail : (orchestrate repo sha cfg env t st).1.record = failRecord st.record ∧
      (orchestrate repo sha cfg env t st).2.2.outcome = RunOutcome.failedAt stg ∧
      (orchestrate repo sha cfg env t st).2.1.success = false ∧
      (orchestrate repo sha cfg env t st).2.1.was_cached = false := by
    unfold failingStage at h
    unfold orchestrate
    cases hfr : env.fetchResult with
    | error e =>
        rw [hfr] at h
        injection h with h
        subst h
        simp
    | ok files =>
        rw [hfr] at h
        cases hcf : env.chunkerFails with
        | true =>
            rw [hcf] at h
            simp only [if_pos] at h
            injection h with h
            subst h
            simp [hcf]
        | false =>
            rw [hcf] at h
            cases hdm : env.embedDimMismatch with
            | true =>
                rw [hdm] at h
                simp only [Bool.false_eq_true, if_false, if_pos] at h
                injection h with h
                subst h
                simp [hcf, hdm]
            | false =>
                rw [hdm] at h
                simp at h
  obtain ⟨hrec, hout, hsucc, hwc⟩ := hfail
  have hstale : isFresh (orchestrate repo sha cfg env t st).1.record sha = false := by
    rw [hrec]
    unfold failRecord isFresh
    simp
  have hnotrun : (recordStatus (orchestrate repo sha cfg env t st).1.record ==
      Status.running) = false := by
    rw [hrec]
    unfold failRecord recordStatus
    simp
  refine ⟨hrec, by rw [hrec]; rfl, by rw [hrec]; rfl, hout, hsucc, hwc, hstale, ?_⟩
  unfold runPipeline
  rw [hstale]
  simp only [Bool.false_eq_true, if_false]
  rw [hnotrun]
  simp only [Bool.false_eq_true, if_false]
  exact orchestrate_fetchCalls repo sha cfg2 env2 t2 _

/-- C7 witness: the failure theorem instantiated on a concrete run whose hosting API is
unreachable, followed by a concrete retry invocation. -/
theorem stage_failure_structured_witness :
    (orchestrate ("r") ("c1") sampleCfg sampleEnvFetchErr 5 emptyIndexState).1.record =
      failRecord emptyIndexState.record ∧
    recordSha (orchestrate ("r") ("c1") sampleCfg sampleEnvFetchErr 5
        emptyIndexState).1.record = recordSha emptyIndexState.record ∧
    recordStatus (orchestrate ("r") ("c1") sampleCfg sampleEnvFetchErr 5
        emptyIndexState).1.record = Status.failed ∧
    (orchestrate ("r") ("c1") sampleCfg sampleEnvFetchErr 5 emptyIndexState).2.2.outcome =
      RunOutcome.failedAt StageName.fetch ∧
    (orchestrate ("r") ("c1") sampleCfg sampleEnvFetchErr 5 emptyIndexState).2.1.success =
      false ∧
    (orchestrate ("r") ("c1") sampleCfg sampleEnvFetchErr 5
        emptyIndexState).2.1.was_cached = false ∧
    isFresh (orchestrate ("r") ("c1") sampleCfg sampleEnvFetchErr 5
        emptyIndexState).1.record ("c1") = false ∧
    (runPipeline ("r") ("c1") sampleCfg sampleEnvOk 6
        (orchestrate ("r") ("c1") sampleCfg sampleEnvFetchErr 5
          emptyIndexState).1).1.fetchCalls =
      (orchestrate ("r") ("c1") sampleCfg sampleEnvFetchErr 5
        emptyIndexState).1.fetchCalls + 1 :=
  stage_failure_structured ("r") ("c1") sampleCfg sampleEnvFetchErr 5 emptyIndexState
    StageName.fetch sampleCfg sampleEnvOk 6 rfl

/-- Auxiliary: a fold preserves any property each step preserves. -/
theorem foldl_preserve {α β : Type} (P : α → Prop) (f : α → β → α)
    (hf : ∀ a b, P a → P (f a b)) : ∀ (l : List β) (a : α), P a → P (l.foldl f a)
  | [], _, h => h
  | b :: l, a, h => foldl_preserve P f hf l (f a b) (hf a b h)

/-- Auxiliary: the closed form of a trigger on a repository that is not running. -/
theorem triggerRun_not_running (repo sha : String) (t : Nat) (st : SyncState)
    (h : st.status repo ≠ Status.running) :
    triggerRun repo sha t st =
      { st with
        status := updStr st.status repo Status.running
        runsStarted := st.runsStarted ++ [(repo, sha)]
        inFlight := fun r => if r = repo then st.inFlight r + 1 else st.inFlight r } := by
  unfold triggerRun
  rw [if_neg h]

/-- Auxiliary: a trigger preserves the single-flight bookkeeping invariant. -/
theorem inv_triggerRun (repo sha : String) (t : Nat) (st : SyncState)
    (h : inFlightInv st) : inFlightInv (triggerRun repo sha t st) := by
  unfold triggerRun
  split_ifs with hrun
  · exact h
  · intro r
    by_cases hr : r = repo
    · subst hr
      have h0 := h r
      rw [if_neg hrun] at h0
      simp [updStr, h0]
    · simp only [updStr, if_neg hr]
      exact h r

/-- Auxiliary: one catch-up trigger step preserves the single-flight invariant. -/
theorem inv_loginStep (t : Nat) (mine : List PendingSync) (s : SyncState) (r : String)
    (h : inFlightInv s) :
    inFlightInv (match latestQueued r mine with
      | some p => triggerRun r p.commitSha t s
      | none => s) := by
  cases hq : latestQueued r mine with
  | some p => exact inv_triggerRun r p.commitSha t s h
  | none => exact h

/-- Auxiliary: onPush preserves the single-flight invariant. -/
theorem inv_onPush (env : SyncEnv) (repo branch sha : String) (t : Nat) (st : SyncState)
    (h : inFlightInv st) : inFlightInv (onPush env repo branch sha t st) := by
  unfold onPush
  split_ifs with h1 h2
  · exact h
  · exact inv_triggerRun repo sha t st h
  · exact h

/-- Auxiliary: onLogin preserves the single-flight invariant. -/
theorem inv_onLogin (env : SyncEnv) (user : String) (t : Nat) (st : SyncState)
    (h : inFlightInv st) : inFlightInv (onLogin env user t st) := by
  unfold onLogin loginFold
  exact foldl_preserve inFlightInv _ (fun s r hs => inv_loginStep t _ s r hs) _ _ h

/-- Auxiliary: every event of the coordinated state machine preserves the single-flight
invariant. -/
theorem inv_syncStep (env : SyncEnv) (st : SyncState) (e : SyncEvent)
    (h : inFlightInv st) : inFlightInv (syncStep env st e) := by
  cases e with
  | push repo branch sha t => exact inv_onPush env repo branch sha t st h
  | login user t => exact inv_onLogin env user t st h
  | logout user => exact h
  | runCompleted repo sha t =>
      simp only [syncStep]
      split_ifs with hrun
      · intro r
        by_cases hr : r = repo
        · subst hr
          have h0 := h r
          rw [if_pos hrun] at h0
          simp [updStr, h0]
        · simp only [updStr, if_neg hr]
          exact h r
      · exact h
  | runFailed repo =>
      simp only [syncStep]
      split_ifs with hrun
      · intro r
        by_cases hr : r = repo
        · subst hr
          have h0 := h r
          rw [if_pos hrun] at h0
          simp [updStr, h0]
        · simp only [updStr, if_neg hr]
          exact h r
      · exact h

/-- Auxiliary: every reachable state satisfies the single-flight invariant. -/
theorem inv_execSync (env : SyncEnv) (evts : List SyncEvent) :
    inFlightInv (execSync env evts) := by
  unfold execSync
  apply foldl_preserve inFlightInv (syncStep env) (fun s e hs => inv_syncStep env s e hs)
  intro r
  simp [initialSyncState]

/-- C2: in every reachable state, at most one Orchestrator run is in flight per
repository; and a push arriving while the repository is running starts no run (the run
log is unchanged and the status stays running) but either no-ops or enqueues a
PendingSync entry. -/
theorem single_flight (env : SyncEnv) :
    (∀ evts repo, (execSync env evts).inFlight repo ≤ 1) ∧
    (∀ st repo branch sha t, st.status repo = Status.running →
      (onPush env repo branch sha t st).runsStarted = st.runsStarted ∧
      (onPush env repo branch sha t st).status repo = Status.running ∧
      ((onPush env repo branch sha t st).pending = st.pending ∨
       (onPush env repo branch sha t st).pending =
         st.pending ++ [{ repo := repo, commitSha := sha, queuedAt := t }])) := by
  constructor
  · intro evts repo
    have hinv := inv_execSync env evts repo
    rw [hinv]
    split <;> simp
  · intro st repo branch sha t hrun
    unfold onPush
    split_ifs with h1 h2
    · exact ⟨rfl, hrun, Or.inl rfl⟩
    · unfold triggerRun
      rw [if_pos hrun]
      exact ⟨rfl, hrun, Or.inr rfl⟩
    · exact ⟨rfl, hrun, Or.inr rfl⟩

/-- C2 witness: the trigger behavior instantiated at a concrete reachable state in which
the repository is running. -/
theorem single_flight_witness :
    (onPush sampleSyncEnv ("r") ("main") ("s2") 2
        (execSync sampleSyncEnv [SyncEvent.login ("u") 0,
          SyncEvent.push ("r") ("main") ("s1") 1])).runsStarted =
      (execSync sampleSyncEnv [SyncEvent.login ("u") 0,
        SyncEvent.push ("r") ("main") ("s1") 1]).runsStarted ∧
    (onPush sampleSyncEnv ("r") ("main") ("s2") 2
        (execSync sampleSyncEnv [SyncEvent.login ("u") 0,
          SyncEvent.push ("r") ("main") ("s1") 1])).status ("r") = Status.running ∧
    ((onPush sampleSyncEnv ("r") ("main") ("s2") 2
        (execSync sampleSyncEnv [SyncEvent.login ("u") 0,
          SyncEvent.push ("r") ("main") ("s1") 1])).pending =
      (execSync sampleSyncEnv [SyncEvent.login ("u") 0,
        SyncEvent.push ("r") ("main") ("s1") 1]).pending ∨
     (onPush sampleSyncEnv ("r") ("main") ("s2") 2
        (execSync sampleSyncEnv [SyncEvent.login ("u") 0,
          SyncEvent.push ("r") ("main") ("s1") 1])).pending =
      (execSync sampleSyncEnv [SyncEvent.login ("u") 0,
        SyncEvent.push ("r") ("main") ("s1") 1]).pending ++
        [{ repo := "r", commitSha := "s2", queuedAt := 2 }]) :=
  (single_flight sampleSyncEnv).2
    (execSync sampleSyncEnv [SyncEvent.login ("u") 0,
      SyncEvent.push ("r") ("main") ("s1") 1])
    ("r") ("main") ("s2") 2 (by decide)

/-- Auxiliary: the catch-up fold starts exactly one run per listed repository, against the
latest queued commit, and touches neither the pending queue nor the sessions, provided
the listed repositories are distinct, none is running, and each has a queued entry. -/
theorem loginFold_spec (t : Nat) (mine : List PendingSync) :
    ∀ (repos : List String) (s : SyncState), repos.Nodup →
      (∀ r ∈ repos, s.status r ≠ Status.running) →
      (∀ r ∈ repos, (latestQueued r mine).isSome = true) →
      (loginFold t mine repos s).runsStarted =
          s.runsStarted ++ repos.map (fun r => (r, latestShaFor r mine)) ∧
        (loginFold t mine repos s).pending = s.pending ∧
        (loginFold t mine repos s).sessions = s.sessions
  | [], s, _, _, _ => by simp [loginFold]
  | r :: rest, s, hnd, hnr, hsome => by
      obtain ⟨p, hp⟩ := Option.isSome_iff_exists.mp (hsome r (by simp))
      have hstep : loginFold t mine (r :: rest) s =
          loginFold t mine rest (triggerRun r p.commitSha t s) := by
        unfold loginFold
        rw [List.foldl_cons, hp]
      have hne : s.status r ≠ Status.running := hnr r (by simp)
      have htr := triggerRun_not_running r p.commitSha t s hne
      have hnotmem : r ∉ rest := (List.nodup_cons.mp hnd).1
      have hrest := loginFold_spec t mine rest (triggerRun r p.commitSha t s)
        (List.nodup_cons.mp hnd).2
        (fun r2 hr2 => by
          have hrr : r2 ≠ r := fun he => hnotmem (he ▸ hr2)
          rw [htr]
          simp only [updStr, if_neg hrr]
          exact hnr r2 (by simp [hr2]))
        (fun r2 hr2 => hsome r2 (by simp [hr2]))
      rw [hstep]
      refine ⟨?_, ?_, ?_⟩
      · rw [hrest.1, htr]
        simp [latestShaFor, hp]
      · rw [hrest.2.1, htr]
      · rw [hrest.2.2, htr]

/-- C8: a push to the tracked branch while the owner has no authenticated session only
records a PendingSync entry and starts no run; a subsequent login for that owner starts
exactly one run per distinct pending repository, each against the latest queued commit,
deletes all pending entries of the owner, and authenticates the session. -/
theorem deferred_sync_coordination (env : SyncEnv) :
    (∀ repo branch sha t st, branch = env.tracked repo →
        st.sessions (env.owner repo) = false →
        onPush env repo branch sha t st =
          { st with pending := st.pending ++
              [{ repo := repo, commitSha := sha, queuedAt := t }] }) ∧
    (∀ user t st,
        (∀ p ∈ st.pending, env.owner p.repo = user →
          st.status p.repo ≠ Status.running) →
        (onLogin env user t st).runsStarted =
            st.runsStarted ++ (userPendingRepos env user st.pending).map
              (fun r => (r, latestShaFor r (userPending env user st.pending))) ∧
          (onLogin env user t st).pending =
            st.pending.filter (fun p => env.owner p.repo != user) ∧
          userPending env user (onLogin env user t st).pending = [] ∧
          (onLogin env user t st).sessions user = true ∧
          (userPendingRepos env user st.pending).Nodup ∧
          (∀ r, r ∈ userPendingRepos env user st.pending ↔
            ∃ p ∈ st.pending, env.owner p.repo = user ∧ p.repo = r)) := by
  have hmem : ∀ user (pend : List PendingSync) r,
      r ∈ userPendingRepos env user pend ↔
        ∃ p ∈ pend, env.owner p.repo = user ∧ p.repo = r := by
    intro user pend r
    unfold userPendingRepos userPending
    simp only [List.mem_dedup, List.mem_map, List.mem_filter, beq_iff_eq]
    constructor
    · rintro ⟨p, ⟨hp, ho⟩, hr⟩
      exact ⟨p, hp, ho, hr⟩
    · rintro ⟨p, hp, ho, hr⟩
      exact ⟨p, ⟨hp, ho⟩, hr⟩
  constructor
  · intro repo branch sha t st h1 h2
    unfold onPush
    rw [if_neg (by simp [h1]), if_neg (by simp [h2])]
  · intro user t st hnr
    have hfold := loginFold_spec t (userPending env user st.pending)
      (userPendingRepos env user st.pending)
      { st with
        sessions := updStr st.sessions user true
        pending := st.pending.filter (fun p => env.owner p.repo != user) }
      (List.nodup_dedup _)
      (fun r hr => by
        obtain ⟨p, hp, ho, hpr⟩ := (hmem user st.pending r).mp hr
        have := hnr p hp ho
        rw [hpr] at this
        exact this)
      (fun r hr => by
        obtain ⟨p, hp, ho, hpr⟩ := (hmem user st.pending r).mp hr
        unfold latestQueued
        rw [List.getLast?_isSome]
        intro hnil
        have hpmem : p ∈ (userPending env user st.pending).filter
            (fun q => q.repo == r) := by
          unfold userPending
          rw [List.mem_filter, List.mem_filter]
          exact ⟨⟨hp, by simp [ho]⟩, by simp [hpr]⟩
        rw [hnil] at hpmem
        simp at hpmem)
    have hrun : onLogin env user t st = loginFold t (userPending env user st.pending)
        (userPendingRepos env user st.pending)
        { st with
          sessions := updStr st.sessions user true
          pending := st.pending.filter (fun p => env.owner p.repo != user) } := rfl
    refine ⟨?_, ?_, ?_, ?_, List.nodup_dedup _, hmem user st.pending⟩
    · rw [hrun, hfold.1]
    · rw [hrun, hfold.2.1]
    · rw [hrun, hfold.2.1]
      unfold userPending
      simp only [List.filter_filter]
      rw [List.filter_eq_nil_iff]
      intro p _
      cases h : env.owner p.repo == user <;> simp [bne, h]
    · rw [hrun, hfold.2.2]
      simp [updStr]

/-- C8 witness: two pushes while the owner is logged out queue two PendingSync entries
and start nothing; the subsequent login starts exactly one coalesced run at the latest
queued commit and clears the queue. -/
theorem deferred_sync_coordination_witness :
    (onPush sampleSyncEnv ("r") ("main") ("s1") 1 initialSyncState =
      { initialSyncState with pending := initialSyncState.pending ++
          [{ repo := "r", commitSha := "s1", queuedAt := 1 }] }) ∧
    ((onLogin sampleSyncEnv ("u") 3
        (execSync sampleSyncEnv [SyncEvent.push ("r") ("main") ("s1") 1,
          SyncEvent.push ("r") ("main") ("s2") 2])).runsStarted =
      (execSync sampleSyncEnv [SyncEvent.push ("r") ("main") ("s1") 1,
        SyncEvent.push ("r") ("main") ("s2") 2]).runsStarted ++
        (userPendingRepos sampleSyncEnv ("u")
          (execSync sampleSyncEnv [SyncEvent.push ("r") ("main") ("s1") 1,
            SyncEvent.push ("r") ("main") ("s2") 2]).pending).map
          (fun r => (r, latestShaFor r (userPending sampleSyncEnv ("u")
            (execSync sampleSyncEnv [SyncEvent.push ("r") ("main") ("s1") 1,
              SyncEvent.push ("r") ("main") ("s2") 2]).pending)))) ∧
    userPending sampleSyncEnv ("u")
      (onLogin sampleSyncEnv ("u") 3
        (execSync sampleSyncEnv [SyncEvent.push ("r") ("main") ("s1") 1,
          SyncEvent.push ("r") ("main") ("s2") 2])).pending = [] ∧
    (execSync sampleSyncEnv [SyncEvent.push ("r") ("main") ("s1") 1,
      SyncEvent.push ("r") ("main") ("s2") 2,
      SyncEvent.login ("u") 3]).runsStarted = [("r", "s2")] ∧
    (execSync sampleSyncEnv [SyncEvent.push ("r") ("main") ("s1") 1,
      SyncEvent.push ("r") ("main") ("s2") 2,
      SyncEvent.login ("u") 3]).pending = [] :=
  ⟨(deferred_sync_coordination sampleSyncEnv).1 ("r") ("main") ("s1") 1 initialSyncState
      rfl rfl,
   ((deferred_sync_coordination sampleSyncEnv).2 ("u") 3
      (execSync sampleSyncEnv [SyncEvent.push ("r") ("main") ("s1") 1,
        SyncEvent.push ("r") ("main") ("s2") 2]) (by decide)).1,
   ((deferred_sync_coordination sampleSyncEnv).2 ("u") 3
      (execSync sampleSyncEnv [SyncEvent.push ("r") ("main") ("s1") 1,
        SyncEvent.push ("r") ("main") ("s2") 2]) (by decide)).2.2.1,
   by decide, by decide⟩

end Otto
